import Mathlib

/-!
Verification development for the simple-markdown parsing engine
(`src/simple-markdown.jsx`).  JavaScript strings are modelled as `List Char`,
JavaScript values (tree nodes, attribute maps, parse state) as a small
JSON-like inductive, and the recursive-descent loop of `parserFor` as a
fuel-indexed function: the fuel decreases by one on every iteration of the
`while (source)` loop and on every re-entry of `nestedParse` through a rule
builder, so running out of fuel for every fuel value models divergence of
the JavaScript original.
-/

namespace SimpleMarkdown

/-- JavaScript strings are modelled as lists of characters. -/
abbrev Str := List Char

/-- Shorthand turning a Lean string literal into the `Str` model. -/
def str (s : String) : Str := s.toList

/-- Model of JavaScript values as they occur in this program: strings,
numbers, booleans, arrays and plain objects (association lists of fields,
looked up first-match-first like unique-key JS objects). -/
inductive JVal where
  | vstr (s : Str)
  | vnum (n : Nat)
  | vbool (b : Bool)
  | varr (elems : List JVal)
  | vobj (fields : List (Str × JVal))

/-- Attribute maps returned by rule builders (`rule.parse`). -/
abbrev Attrs := List (Str × JVal)

/-- The mutable `state` object threaded through parsing.  Mutation by a
builder is modelled by the builder returning the updated map. -/
abbrev StateMap := List (Str × JVal)

/-- Field lookup on a JS object (association list, first entry wins). -/
def lookupField : List (Str × JVal) → Str → Option JVal
  | [], _ => none
  | (k, v) :: rest, key => if key = k then some v else lookupField rest key

/-- The result of `regex.exec`: `matched` is `capture[0]` (the whole matched
prefix) and `groups` holds `capture[1]`, `capture[2]`, ... where `none` is a
group that did not participate. -/
structure Capture where
  matched : Str
  groups : List (Option Str)

/-- The string `capture[i]` for `i ≥ 1`, with `""` standing for an absent
group (the rules exercised here only read groups that participated). -/
def Capture.grpD (c : Capture) (i : Nat) : Str :=
  match c.groups.get? (i - 1) with
  | some (some s) => s
  | _ => []

/-- Errors a parse can end in.  `noRule` models the
`"could not find rule to match content"` throw (line 45), `missingRule` the
TypeError raised when `ruleList` names a type absent from `rules` (reading
`.regex` of `undefined`), and `outOfFuel` is the fuel-model marker whose
occurrence at every fuel value represents an infinite loop. -/
inductive PErr where
  | noRule (remainder : Str)
  | missingRule (rt : Str)
  | outOfFuel

/-- Result of a parse: the accumulated node array together with the final
state of the (mutated-in-place) `state` object, or an error. -/
abbrev PResult := Except PErr (List JVal × StateMap)

/-- The type of the recursive-parse function handed to rule builders:
`nestedParse(source, state)`, where the second argument may be omitted
(`none` models the JS `undefined`). -/
abbrev ParseFn := Str → Option StateMap → PResult

/-- Errors of the output stage.  `unknownRuleType` models the TypeError
raised by `rules[ast.type].output(...)` when the node's type has no
registered renderer. -/
inductive OErr where
  | unknownRuleType
  | outOfFuel

/-- Opaque target representations produced by renderers (enough structure
for concrete test renderers: text, tagged elements, arrays). -/
inductive RVal where
  | rtext (s : Str)
  | rtag (name : Str) (children : List RVal)
  | rarr (xs : List RVal)

/-- Result of a render call. -/
abbrev ORes := Except OErr RVal

/-- A pattern rule, `{regex, parse, output}` (lines 99-316): `exec` models
`regex.exec` on the remaining input (anchored), `parse` is the builder
`(capture, nestedParse, state) → attributes` (returning the updated state as
well, to model in-place mutation), and `output` is the optional renderer
(`lheading` and `escape` have none). -/
structure Rule where
  exec : Str → Option Capture
  parse : Capture → ParseFn → StateMap → Except PErr (Attrs × StateMap)
  output : Option (JVal → (JVal → ORes) → ORes)

/-- The rule table: rule-type tag → rule (a JS object, modelled as an
association list). -/
abbrev RuleTable := List (Str × Rule)

/-- Property lookup `rules[ruleType]` on the rule table. -/
def lookupRule : RuleTable → Str → Option Rule
  | [], _ => none
  | (k, r) :: rest, rt => if rt = k then some r else lookupRule rest rt

/-- The guard `i === rules.length` of line 44.  `rules` is the rule-table
object, so `rules.length` evaluates to the property named `length` of that
object — a `Rule` record if one happens to be registered under the tag
`"length"`, and otherwise JavaScript `undefined`.  The loop counter `i` is a
number, and strict equality between a number and either a `Rule` object or
`undefined` is `false`, so the guard never fires (the intended comparison
was evidently `i === ruleList.length`). -/
def guardNoRule (rules : RuleTable) (_i : Nat) : Bool :=
  match lookupRule rules (str "length") with
  | some _ => false
  | none => false

/-- Outcome of the inner `while (i < ruleList.length)` loop (lines 29-43):
either some rule's regex matched (`found`, carrying the index at which the
loop broke), or the list was exhausted, or a rule type was missing from the
table (JS TypeError). -/
inductive TryOut where
  | found (k : Nat) (rt : Str) (r : Rule) (cap : Capture)
  | exhausted
  | crashed (rt : Str)

/-- The inner rule-scanning loop: walk `ruleList` in priority order, look
each type up in `rules`, run its regex against the current `source`, and
stop at the first successful match. -/
def tryRulesGo (rules : RuleTable) (source : Str) : List Str → Nat → TryOut
  | [], _ => .exhausted
  | rt :: rest, k =>
    match lookupRule rules rt with
    | none => .crashed rt
    | some r =>
      match r.exec source with
      | some cap => .found k rt r cap
      | none => tryRulesGo rules source rest (k + 1)

/-- `_.extend({type: ruleType}, rule.parse(...))` (lines 35-38): the node is
the builder's attribute map tagged with `type`; an explicit `type` attribute
returned by the builder overrides the originating rule-type tag. -/
def extendType (rt : Str) (attrs : Attrs) : JVal :=
  .vobj ((str "type", (lookupField attrs (str "type")).getD (.vstr rt)) ::
    attrs.filter (fun kv => !(kv.fst == str "type")))

/-- One successful iteration of the outer loop (lines 33-41): shrink the
source by `capture[0].length`, invoke the builder with the capture, the
recursive-parse function `next` and the current state, push the tagged node
and continue with the rest of the input and the (possibly mutated) state. -/
def parseStep (next : ParseFn) (rt : Str) (r : Rule) (cap : Capture)
    (source : Str) (st : StateMap) : PResult :=
  match r.parse cap next st with
  | .error e => .error e
  | .ok (attrs, st') =>
    match next (source.drop cap.matched.length) (some st') with
    | .error e => .error e
    | .ok (ns, st'') => .ok (extendType rt attrs :: ns, st'')

/-- The parse function produced by `parserFor(rules, ruleList)`
(lines 23-53), indexed by fuel.  `state = state || {}` is the
`st?.getD []`; the `while (source)` loop is the recursion on the same
source when no rule matched (the unreachable `noRule` throw guarded by
`guardNoRule`) and on the shortened source after a match. -/
def nestedParse (rules : RuleTable) (ruleList : List Str) :
    Nat → Str → Option StateMap → PResult
  | 0, source, st? =>
    if source = [] then .ok ([], st?.getD []) else .error .outOfFuel
  | fuel + 1, source, st? =>
    let st := st?.getD []
    if source = [] then .ok ([], st)
    else
      match tryRulesGo rules source ruleList 0 with
      | .crashed rt => .error (.missingRule rt)
      | .exhausted =>
        if guardNoRule rules ruleList.length then .error (.noRule source)
        else nestedParse rules ruleList fuel source (some st)
      | .found _k rt r cap =>
        parseStep (nestedParse rules ruleList fuel) rt r cap source st

/-- `parserFor` returns the nested parse function itself. -/
def parserFor (rules : RuleTable) (ruleList : List Str) :
    Nat → Str → Option StateMap → PResult :=
  nestedParse rules ruleList

/-- Test fixture for the C1 scenario: a single rule matching only a leading
`!`, so the table has no catch-all rule. -/
def bangRule : Rule :=
  ⟨fun s => match s with
    | '!' :: _ => some ⟨['!'], []⟩
    | _ => none,
   fun _ _ st => .ok ([], st),
   none⟩

/-- A rule table lacking a catch-all rule. -/
def tblNoCatchAll : RuleTable := [(str "bang", bangRule)]

/-- `_.isArray(ast)` (line 57). -/
def isArr : JVal → Bool
  | .varr _ => true
  | _ => false

/-- `_.map(ast, nestedOutput)` (line 58): render each element in order; an
error thrown at one element propagates out of the whole map. -/
def outputList (out : JVal → ORes) : List JVal → Except OErr (List RVal)
  | [] => .ok []
  | x :: xs =>
    match out x with
    | .error e => .error e
    | .ok v =>
      match outputList out xs with
      | .error e => .error e
      | .ok vs => .ok (v :: vs)

/-- The tree-walking dispatcher produced by `outputFor(outputFunc)`
(lines 55-64), indexed by fuel (renderers re-enter it through the callback):
an array is mapped element-wise, anything else is handed to `outputFunc`
together with the dispatcher itself. -/
def nestedOutput (outputFunc : JVal → (JVal → ORes) → ORes) : Nat → JVal → ORes
  | 0, _ => .error .outOfFuel
  | fuel + 1, ast =>
    match ast with
    | .varr xs =>
      match outputList (nestedOutput outputFunc fuel) xs with
      | .error e => .error e
      | .ok vs => .ok (.rarr vs)
    | _ => outputFunc ast (nestedOutput outputFunc fuel)

/-- `outputFor` returns the nested output function itself. -/
def outputFor (outputFunc : JVal → (JVal → ORes) → ORes) : Nat → JVal → ORes :=
  nestedOutput outputFunc

/-- `ast.type` — the `type` field of a node object, absent on non-objects. -/
def typeOf : JVal → Option JVal
  | .vobj fields => lookupField fields (str "type")
  | _ => none

/-- `ruleOutput(rules)` (lines 320-325): `(ast, outputFunc) =>
rules[ast.type].output(ast, outputFunc)`.  When the node's type has no
entry in `rules`, or the entry has no `output` renderer, the property
access on `undefined` throws — modelled as `unknownRuleType`. -/
def ruleOutput (rules : RuleTable) : JVal → (JVal → ORes) → ORes :=
  fun ast outputFunc =>
    match typeOf ast with
    | some (.vstr t) =>
      match lookupRule rules t with
      | some r =>
        match r.output with
        | some o => o ast outputFunc
        | none => .error .unknownRuleType
      | none => .error .unknownRuleType
    | _ => .error .unknownRuleType

/-- Test fixture renderer for the output-engine claims: renders every node
as the fixed text `"n"`. -/
def constRenderer : JVal → (JVal → ORes) → ORes :=
  fun _ _ => .ok (.rtext (str "n"))

/-- Test fixture: a catch-all rule consuming exactly one character of any
non-empty input, with a builder that neither recurses nor touches state. -/
def charRule : Rule :=
  ⟨fun s => match s with
    | c :: _ => some ⟨[c], []⟩
    | [] => none,
   fun cap _ st => .ok ([(str "content", .vstr cap.matched)], st),
   none⟩

/-- Test fixture table containing only the catch-all rule. -/
def tblChar : RuleTable := [(str "char", charRule)]

/-- Test fixture: a rule matching only a leading `0`. -/
def ruleA0 : Rule :=
  ⟨fun s => match s with
    | '0' :: _ => some ⟨['0'], []⟩
    | _ => none,
   fun _ _ st => .ok ([], st),
   none⟩

/-- Test fixture: matches any non-empty input, tagging which rule built the
node. -/
def ruleA1 : Rule :=
  ⟨fun s => match s with
    | c :: _ => some ⟨[c], []⟩
    | [] => none,
   fun _ _ st => .ok ([(str "which", .vstr (str "a1"))], st),
   none⟩

/-- Test fixture: also matches any non-empty input, with a distinguishable
builder. -/
def ruleA2 : Rule :=
  ⟨fun s => match s with
    | c :: _ => some ⟨[c], []⟩
    | [] => none,
   fun _ _ st => .ok ([(str "which", .vstr (str "a2"))], st),
   none⟩

/-- Test fixture table for the precedence claim: `a1` and `a2` both match
the input `"x"`, `a0` does not. -/
def tblPrec : RuleTable :=
  [(str "a0", ruleA0), (str "a1", ruleA1), (str "a2", ruleA2)]

/-- An unordered list marker, the `[*+-]` branch of `LIST_BULLET`
(line 74). -/
def isUnorderedBullet (c : Char) : Bool := c = '*' || c = '+' || c = '-'

/-- Anchored match of `LIST_BULLET` = `(?:[*+-]|\d+\.)` (line 74): one
unordered marker, or one-or-more digits followed by a dot.  Returns the
bullet token and the rest of the input. -/
def matchBullet : Str → Option (Str × Str)
  | [] => none
  | c :: rest =>
    if isUnorderedBullet c then some ([c], rest)
    else
      match (c :: rest).takeWhile Char.isDigit,
            (c :: rest).dropWhile Char.isDigit with
      | [], _ => none
      | ds, '.' :: r2 => some (ds ++ ['.'], r2)
      | _, _ => none

/-- Anchored match of `LIST_ITEM_PREFIX_R` = `^( *)(bullet) ` (lines 77-78):
greedy leading spaces, a bullet token, one space.  Returns
`(indent, bullet, rest)`. -/
def listItemStart (s : Str) : Option (Str × Str × Str) :=
  match matchBullet (s.dropWhile (fun c => c = ' ')) with
  | none => none
  | some (b, r2) =>
    match r2 with
    | ' ' :: r3 => some (s.takeWhile (fun c => c = ' '), b, r3)
    | _ => none

/-- The lookahead body `\1LIST_BULLET ` of `LIST_ITEM_R` (line 89): does `s`
start with exactly the captured indent, then some bullet token, then a
space?  (A line indented deeper than the item's own indent starts with a
space where a bullet is required, so it is a continuation, as in the
regex.) -/
def startsSibling (indent : Str) (s : Str) : Bool :=
  if s.take indent.length = indent then
    match matchBullet (s.drop indent.length) with
    | some (_, r) =>
      match r with
      | ' ' :: _ => true
      | _ => false
    | none => false
  else false

/-- The greedy tail `[^\n]*(?:\n(?!\1LIST_BULLET )[^\n]*)*` of `LIST_ITEM_R`
(lines 86-91): consume characters of the current and following lines,
stopping only at the end of input or at a newline followed by a sibling
bullet line at the item's indent.  (The regex is greedy with no following
mandatory part, so this no-backtracking scan is its exact semantics.)
Returns the consumed body and the rest. -/
def itemBody (indent : Str) : Str → (Str × Str)
  | [] => ([], [])
  | c :: rest =>
    if c = '\n' then
      if startsSibling indent rest then ([], c :: rest)
      else
        let (a, b) := itemBody indent rest
        (c :: a, b)
    else
      let (a, b) := itemBody indent rest
      (c :: a, b)

/-- One anchored match of `LIST_ITEM_R` at the current position: the item
prefix followed by the greedy body.  Returns the matched item substring and
the rest of the input. -/
def matchItemAt (s : Str) : Option (Str × Str) :=
  match listItemStart s with
  | none => none
  | some (indent, bullet, r) =>
    match itemBody indent r with
    | (body, rest) => some (indent ++ bullet ++ ' ' :: body, rest)

/-- The global scan of `capture[0].match(LIST_ITEM_R)` (line 168): find all
non-overlapping matches left to right, resuming after each match and
advancing one character past each failed position.  Structured on fuel; a
successful match consumes at least the two-character bullet-plus-space
prefix and a failure advances one character, so fuel equal to the input
length never runs out before the scan finishes. -/
def scanItemsF : Nat → Str → List Str
  | 0, _ => []
  | _ + 1, [] => []
  | fuel + 1, c :: rest =>
    match matchItemAt (c :: rest) with
    | some (item, r) => item :: scanItemsF fuel r
    | none => scanItemsF fuel rest

/-- `capture[0].match(LIST_ITEM_R)` — the item substrings of a matched list
block (an empty result models the JS `null`, over which `_.map` yields
`[]`). -/
def scanItems (s : Str) : List Str := scanItemsF s.length s

/-- `LIST_ITEM_PREFIX_R.exec(item)[0].length` (line 173): the indentation
width consumed by `<indent><bullet><space>`.  Items produced by the
segmentation always match the prefix, so the `none` fallback is
unreachable there. -/
def itemSpace (item : Str) : Nat :=
  match listItemStart item with
  | some (indent, bullet, _) => indent.length + bullet.length + 1
  | none => 0

/-- The per-line dedent `.replace(spaceRegex, '')` where `spaceRegex` is
`^ {1,space}` with flags `gm` (lines 176-181): at the start of the string
and after each newline, drop up to `n` leading spaces.  The first argument
of the worker is how many spaces may still be dropped at the current
position (`0` = copying mode). -/
def dedentGo (n : Nat) : Nat → Str → Str
  | _, [] => []
  | 0, c :: rest =>
    if c = '\n' then c :: dedentGo n n rest else c :: dedentGo n 0 rest
  | k + 1, c :: rest =>
    if c = ' ' then dedentGo n k rest
    else if c = '\n' then c :: dedentGo n n rest
    else c :: dedentGo n 0 rest

/-- Dedent every line of `s` by up to `n` spaces. -/
def dedent (n : Nat) (s : Str) : Str := dedentGo n n s

/-- `.replace(LIST_ITEM_PREFIX_R, '')` (line 183): remove the
`<indent><bullet><space>` prefix if present. -/
def stripBullet (s : Str) : Str :=
  match listItemStart s with
  | some (_, _, r) => r
  | none => s

/-- The content of one item before the tight/loose adjustment (lines
179-183): `(item + "\n")`, dedented by the item's own prefix width, with
the bullet prefix removed. -/
def itemRaw (item : Str) : Str :=
  stripBullet (dedent (itemSpace item) (item ++ ['\n']))

/-- `content.search(LIST_BLOCK_END_R) >= 0` where `LIST_BLOCK_END_R` is
`/\n{2,}$/` (line 94): does the content end with two or more newlines? -/
def endsWith2NL (s : Str) : Bool :=
  match s.reverse with
  | '\n' :: '\n' :: _ => true
  | _ => false

/-- Length of the maximal trailing newline run. -/
def trailingNLCount (s : Str) : Nat :=
  (s.reverse.takeWhile (fun c => c = '\n')).length

/-- `content.replace(LIST_BLOCK_END_R, '')` (line 201): if the trailing
newline run has length at least two, remove the whole run, else leave the
content unchanged. -/
def stripBlockEnd (s : Str) : Str :=
  if 2 ≤ trailingNLCount s then s.take (s.length - trailingNLCount s) else s

/-- The per-item content computation of the `_.map` body (lines 171-205),
separated from the recursive parse calls (which it does not depend on):
`len` is `items.length`, the second argument the current index `i`, the
third the `lastItemWasAParagraph` flag.  Index comparisons are over `Int`
because `items.length - 2` is `-1` in JS for a single-item list. -/
def listContentsGo (len : Nat) : List Str → Nat → Bool → List Str
  | [], _, _ => []
  | item :: rest, i, lastWasPara =>
    if (i : Int) = (len : Int) - 2 then
      itemRaw item ::
        listContentsGo len rest (i + 1) (endsWith2NL (itemRaw item))
    else if (i : Int) = (len : Int) - 1 ∧ lastWasPara = false then
      stripBlockEnd (itemRaw item) :: listContentsGo len rest (i + 1) lastWasPara
    else
      itemRaw item :: listContentsGo len rest (i + 1) lastWasPara

/-- The content strings handed to the recursive parse, one per item. -/
def listContents (items : List Str) : List Str :=
  listContentsGo items.length items 0 false

/-- The sequence of `parse(content, state)` calls of the `_.map`
(line 205), threading the shared state through the items in order. -/
def parseItems (p : ParseFn) :
    List Str → StateMap → Except PErr (List JVal × StateMap)
  | [], st => .ok ([], st)
  | c :: cs, st =>
    match p c (some st) with
    | .error e => .error e
    | .ok (ns, st') =>
      match parseItems p cs st' with
      | .error e => .error e
      | .ok (vs, st'') => .ok (.varr ns :: vs, st'')

/-- The `list` rule's builder (lines 165-212): `ordered` iff the first
bullet token `capture[2]` has length greater than one; segment `capture[0]`
into items, compute each item's content with the tight/loose logic, parse
each recursively with the shared state, and return
`{ordered: ordered, items: itemContent}`. -/
def listParse (cap : Capture) (p : ParseFn) (st : StateMap) :
    Except PErr (Attrs × StateMap) :=
  let bullet := cap.grpD 2
  let ordered := decide (1 < bullet.length)
  let items := scanItems cap.matched
  match parseItems p (listContents items) st with
  | .error e => .error e
  | .ok (vs, st') =>
    .ok ([(str "ordered", .vbool ordered), (str "items", .varr vs)], st')

/-- Test fixture recursive-parse function: wraps the given source as a
single text value, leaving the state unchanged. -/
def stubParse : ParseFn := fun s st? => .ok ([.vstr s], st?.getD [])

/-- The capture produced by the list regex (lines 157-164) on the block
`"1. a\n"`: groups 1 and 2 are the leading `( *)(bullet)`. -/
def capOne : Capture := ⟨str "1. a\n", [some [], some (str "1.")]⟩

/-- The capture produced by the list regex on the block `"* a\n"`. -/
def capStar : Capture := ⟨str "* a\n", [some [], some (str "*")]⟩

/-- A setext underline marker: the `(=|-)` of the `lheading` regex. -/
def isSetextMarker (c : Char) : Bool := c = '=' || c = '-'

/-- Anchored match of the `lheading` regex `^([^\n]+)\n *(=|-){3,} *\n+`
(line 116): a non-empty first line (group 1), a newline, optional spaces,
at least three marker characters (group 2 holds the last repetition),
optional spaces, at least one trailing newline. -/
def lheadingExec (s : Str) : Option Capture :=
  match s.takeWhile (fun c => c ≠ '\n'), s.dropWhile (fun c => c ≠ '\n') with
  | [], _ => none
  | l1, '\n' :: r2 =>
    let sp := r2.takeWhile (fun c => c = ' ')
    let r3 := r2.dropWhile (fun c => c = ' ')
    let mk := r3.takeWhile isSetextMarker
    let r4 := r3.dropWhile isSetextMarker
    if mk.length < 3 then none
    else
      let sp2 := r4.takeWhile (fun c => c = ' ')
      let r5 := r4.dropWhile (fun c => c = ' ')
      let nl := r5.takeWhile (fun c => c = '\n')
      if nl = [] then none
      else
        some ⟨l1 ++ '\n' :: (sp ++ mk ++ sp2 ++ nl),
          [some l1, some [mk.getLastD '=']]⟩
  | _, _ => none

/-- The `lheading` builder (lines 117-123): returns a `type` override of
`"heading"`, a level decided by whether `capture[2]` is `"="`, and the
recursively parsed first line (with the shared state passed along). -/
def lheadingParse (cap : Capture) (p : ParseFn) (st : StateMap) :
    Except PErr (Attrs × StateMap) :=
  match p (cap.grpD 1) (some st) with
  | .error e => .error e
  | .ok (ns, st') =>
    .ok ([(str "type", .vstr (str "heading")),
          (str "level", .vnum (if cap.grpD 2 = str "=" then 1 else 2)),
          (str "content", .varr ns)], st')

/-- The `lheading` rule (lines 115-124); it registers no renderer. -/
def lheadingRule : Rule := ⟨lheadingExec, lheadingParse, none⟩

/-- Test fixture table pairing `lheading` with the one-character catch-all
rule. -/
def tblLheading : RuleTable :=
  [(str "lheading", lheadingRule), (str "char", charRule)]

/-- `parseCapture` (lines 66-70): the shared builder
`{content: parse(capture[1], state)}` — the nested parse receives the
enclosing state. -/
def parseCapture (cap : Capture) (p : ParseFn) (st : StateMap) :
    Except PErr (Attrs × StateMap) :=
  match p (cap.grpD 1) (some st) with
  | .error e => .error e
  | .ok (ns, st') => .ok ([(str "content", .varr ns)], st')

/-- The `link` builder (lines 242-247):
`{content: parse(capture[1]), target: capture[2]}` — the nested parse of
the bracketed content is invoked with no state argument, and the fresh
state it creates is discarded. -/
def linkParse (cap : Capture) (p : ParseFn) (st : StateMap) :
    Except PErr (Attrs × StateMap) :=
  match p (cap.grpD 1) none with
  | .error e => .error e
  | .ok (ns, _) =>
    .ok ([(str "content", .varr ns), (str "target", .vstr (cap.grpD 2))], st)

/-- Test fixture matcher standing in for the link regex: matches exactly
the input `"[p](t)"`, with bracketed content `"p"` as group 1 and target
`"t"` as group 2. -/
def linkFixtureExec : Str → Option Capture :=
  fun s =>
    if s = str "[p](t)" then
      some ⟨str "[p](t)", [some (str "p"), some (str "t")]⟩
    else none

/-- The link rule with the fixture matcher and the real builder. -/
def linkRule : Rule := ⟨linkFixtureExec, linkParse, none⟩

/-- Test fixture rule whose builder records the state it is invoked with
into the node, making the state seen by nested parses observable. -/
def probeRule : Rule :=
  ⟨fun s => match s with
    | 'p' :: _ => some ⟨['p'], []⟩
    | _ => none,
   fun _ _ st => .ok ([(str "sawState", .vobj st)], st),
   none⟩

/-- Table exercising the link builder around the probe. -/
def tblLink : RuleTable := [(str "link", linkRule), (str "probe", probeRule)]

/-- Same shape, but the wrapper uses `parseCapture`, which passes the
enclosing state to the nested parse. -/
def tblShare : RuleTable :=
  [(str "wrap", ⟨linkFixtureExec, parseCapture, none⟩), (str "probe", probeRule)]

/-- Test fixture refuting the universal termination claim: the regex
analogue is `^([\s\S])` — a catch-all matching any non-empty input,
consuming exactly one character (a prefix of the remaining input), with
the whole matched character as group 1 — whose builder is the source's own
`parseCapture`, so every match re-parses the one-character string it just
consumed. -/
def selfRule : Rule :=
  ⟨fun s => match s with
    | c :: _ => some ⟨[c], [some [c]]⟩
    | [] => none,
   parseCapture,
   none⟩

/-- Table containing only the self-re-parsing catch-all rule. -/
def tblSelf : RuleTable := [(str "self", selfRule)]

/-- Test fixture rule with a genuinely nested-parsing builder: the regex
analogue is `^h([\s\S])` — an `h` followed by any character, that character
being group 1 — and the builder is the source's `parseCapture`, which
re-enters the parser on the strictly shorter captured substring. -/
def nestRule : Rule :=
  ⟨fun s => match s with
    | c1 :: c2 :: _ =>
      if c1 = 'h' then some ⟨[c1, c2], [some [c2]]⟩ else none
    | _ => none,
   parseCapture,
   none⟩

/-- Table pairing the nested-parsing rule with the one-character
catch-all. -/
def tblNest : RuleTable := [(str "nest", nestRule), (str "char", charRule)]

end SimpleMarkdown

namespace SimpleMarkdown

/-- The guard of line 44 can never hold, whatever the table and counter. -/
theorem guardNoRule_eq_false (rules : RuleTable) (i : Nat) :
    guardNoRule rules i = false := by
  unfold guardNoRule
  cases lookupRule rules (str "length") <;> rfl

/-- Claim C1 (status: code bug).  On a rule table lacking a catch-all rule
and the input `"???"` that matches no configured rule, `parse` does not
raise the intended no-rule-matched error: the check on line 44 compares the
loop counter with `rules.length` (a property of the rules *object*, i.e.
`undefined`) instead of `ruleList.length`, so the throw on lines 45-47 is
unreachable and the `while (source)` loop repeats forever on the unchanged
remainder.  In the fuel model the run exhausts every fuel value — it
neither raises `noRule` nor returns. -/
theorem parse_noRuleMatched_never_raised_diverges :
    ∀ (fuel : Nat) (st? : Option StateMap),
      nestedParse tblNoCatchAll [str "bang"] fuel (str "???") st? =
        .error .outOfFuel := by
  intro fuel
  induction fuel with
  | zero => intro st?; rfl
  | succ f ih =>
    intro st?
    show nestedParse tblNoCatchAll [str "bang"] (f + 1) (str "???") st? =
      .error .outOfFuel
    rw [nestedParse]
    exact ih (some ((st?).getD []))

/-- Characterization of `outputList`: a successful element-wise map has the
same length as the input and its `i`-th entry is the successful render of
the `i`-th element. -/
theorem outputList_spec (out : JVal → ORes) :
    ∀ (xs : List JVal) (vs : List RVal), outputList out xs = .ok vs →
      vs.length = xs.length ∧
        ∀ (i : Nat) (x : JVal), xs.get? i = some x →
          ∃ v, vs.get? i = some v ∧ out x = .ok v := by
  intro xs
  induction xs with
  | nil =>
    intro vs h
    simp only [outputList] at h
    cases h
    exact ⟨rfl, by intro i x hx; simp at hx⟩
  | cons x xs ih =>
    intro vs h
    simp only [outputList] at h
    cases hx : out x with
    | error e => rw [hx] at h; cases h
    | ok v =>
      rw [hx] at h
      cases hxs : outputList out xs with
      | error e => rw [hxs] at h; cases h
      | ok vs' =>
        rw [hxs] at h
        cases h
        obtain ⟨hlen, hget⟩ := ih vs' hxs
        refine ⟨by simp [hlen], ?_⟩
        intro i y hy
        cases i with
        | zero =>
          simp only [List.get?] at hy ⊢
          cases hy
          exact ⟨v, rfl, hx⟩
        | succ i =>
          simp only [List.get?] at hy ⊢
          exact hget i y hy

/-- Claim C5 (status: confirmed).  The render function produced by
`outputFor` distributes element-wise over sequences, preserving order and
length, and on a single (non-array) node performs exactly one dispatch to
the renderer lookup, passing the node together with the render function
itself as the recursive callback. -/
theorem output_elementwise_and_single_dispatch :
    (∀ (outputFunc : JVal → (JVal → ORes) → ORes) (fuel : Nat)
        (xs : List JVal) (vs : List RVal),
      outputFor outputFunc (fuel + 1) (.varr xs) = .ok (.rarr vs) →
        vs.length = xs.length ∧
          ∀ (i : Nat) (x : JVal), xs.get? i = some x →
            ∃ v, vs.get? i = some v ∧
              outputFor outputFunc fuel x = .ok v) ∧
    (∀ (outputFunc : JVal → (JVal → ORes) → ORes) (fuel : Nat) (ast : JVal),
      isArr ast = false →
        outputFor outputFunc (fuel + 1) ast =
          outputFunc ast (outputFor outputFunc fuel)) := by
  constructor
  · intro outputFunc fuel xs vs h
    simp only [outputFor, nestedOutput] at h
    cases hxs : outputList (nestedOutput outputFunc fuel) xs with
    | error e => rw [hxs] at h; cases h
    | ok vs' =>
      rw [hxs] at h
      cases h
      exact outputList_spec _ xs _ hxs
  · intro outputFunc fuel ast hast
    cases ast with
    | varr xs => simp [isArr] at hast
    | vstr s => rfl
    | vnum n => rfl
    | vbool b => rfl
    | vobj fields => rfl

/-- Witness for C5 at a concrete renderer lookup and node sequence. -/
theorem output_elementwise_and_single_dispatch_witness :
    (∃ v, ([RVal.rtext (str "n"), RVal.rtext (str "n")] : List RVal).get? 0 =
        some v ∧ outputFor constRenderer 1 (.vobj []) = .ok v) ∧
    outputFor constRenderer 1 (.vnum 3) =
      constRenderer (.vnum 3) (outputFor constRenderer 0) := by
  constructor
  · exact (output_elementwise_and_single_dispatch.1 constRenderer 1
      [JVal.vobj [], JVal.vobj []] [RVal.rtext (str "n"), RVal.rtext (str "n")]
      rfl).2 0 (JVal.vobj []) rfl
  · exact output_elementwise_and_single_dispatch.2 constRenderer 0 (.vnum 3) rfl

/-- Claim C6 (status: confirmed).  Rendering a node whose `type` tag has no
registered rule in the lookup table fails: `rules[ast.type]` is `undefined`
and the `.output` access throws — the UnknownRuleType failure. -/
theorem output_unknown_rule_type_error :
    ∀ (rules : RuleTable) (fields : List (Str × JVal)) (t : Str) (fuel : Nat),
      lookupField fields (str "type") = some (.vstr t) →
      lookupRule rules t = none →
      outputFor (ruleOutput rules) (fuel + 1) (.vobj fields) =
        .error .unknownRuleType := by
  intro rules fields t fuel htype hrule
  show ruleOutput rules (.vobj fields) (nestedOutput (ruleOutput rules) fuel) =
    .error .unknownRuleType
  simp only [ruleOutput, typeOf, htype, hrule]

/-- Witness for C6: a node of type `"nope"` against an empty renderer
lookup. -/
theorem output_unknown_rule_type_error_witness :
    outputFor (ruleOutput []) 1 (.vobj [(str "type", .vstr (str "nope"))]) =
      .error .unknownRuleType :=
  output_unknown_rule_type_error [] [(str "type", .vstr (str "nope"))]
    (str "nope") 0 rfl rfl

/-- Full characterization of the inner rule-scanning loop: a `found` result
is the first rule in priority order whose regex matches (all earlier ones
fail); `exhausted` means every rule failed; `crashed` names a listed rule
type absent from the table. -/
theorem tryRulesGo_spec (rules : RuleTable) (source : Str) :
    ∀ (rl : List Str) (k0 : Nat),
      (∀ k rt r cap, tryRulesGo rules source rl k0 = .found k rt r cap →
        ∃ off, k = k0 + off ∧ rl.get? off = some rt ∧
          lookupRule rules rt = some r ∧ r.exec source = some cap ∧
          ∀ m rtm rm, m < off → rl.get? m = some rtm →
            lookupRule rules rtm = some rm → rm.exec source = none) ∧
      (tryRulesGo rules source rl k0 = .exhausted →
        ∀ m rtm rm, rl.get? m = some rtm → lookupRule rules rtm = some rm →
          rm.exec source = none) ∧
      (∀ rt, tryRulesGo rules source rl k0 = .crashed rt →
        rt ∈ rl ∧ lookupRule rules rt = none) := by
  intro rl
  induction rl with
  | nil =>
    intro k0
    refine ⟨?_, ?_, ?_⟩
    · intro k rt r cap h; cases h
    · intro _ m rtm rm hm; simp at hm
    · intro rt h; cases h
  | cons rt0 rest ih =>
    intro k0
    refine ⟨?_, ?_, ?_⟩
    · intro k rt r cap h
      simp only [tryRulesGo] at h
      cases hl : lookupRule rules rt0 with
      | none => simp only [hl] at h; cases h
      | some r0 =>
        simp only [hl] at h
        cases he : r0.exec source with
        | some cap0 =>
          simp only [he] at h
          cases h
          refine ⟨0, by omega, rfl, hl, he, ?_⟩
          intro m rtm rm hm; omega
        | none =>
          simp only [he] at h
          obtain ⟨off, hk, hoff, hlook, hexec, hmin⟩ := ((ih (k0 + 1)).1) k rt r cap h
          refine ⟨off + 1, by omega, hoff, hlook, hexec, ?_⟩
          intro m rtm rm hm hgm hlm
          cases m with
          | zero =>
            simp only [List.get?] at hgm
            cases hgm
            rw [hlm] at hl
            cases hl
            exact he
          | succ m' =>
            simp only [List.get?] at hgm
            exact hmin m' rtm rm (by omega) hgm hlm
    · intro h m rtm rm hgm hlm
      simp only [tryRulesGo] at h
      cases hl : lookupRule rules rt0 with
      | none => simp only [hl] at h; cases h
      | some r0 =>
        simp only [hl] at h
        cases he : r0.exec source with
        | some cap0 => simp only [he] at h; cases h
        | none =>
          simp only [he] at h
          cases m with
          | zero =>
            simp only [List.get?] at hgm
            cases hgm
            rw [hlm] at hl
            cases hl
            exact he
          | succ m' =>
            simp only [List.get?] at hgm
            exact ((ih (k0 + 1)).2.1) h m' rtm rm hgm hlm
    · intro rt h
      simp only [tryRulesGo] at h
      cases hl : lookupRule rules rt0 with
      | none =>
        simp only [hl] at h
        cases h
        exact ⟨List.mem_cons_self _ _, hl⟩
      | some r0 =>
        simp only [hl] at h
        cases he : r0.exec source with
        | some cap0 => simp only [he] at h; cases h
        | none =>
          simp only [he] at h
          obtain ⟨hmem, hnone⟩ := ((ih (k0 + 1)).2.2) rt h
          exact ⟨List.mem_cons_of_mem _ hmem, hnone⟩

/-- Claim C3 (status: confirmed).  If the matchers of two rules both
succeed on the current remaining input, the parse step applies the first
matching rule in priority order — a rule at a position no later than the
earlier of the two, in particular strictly before the later rule, whose
result is therefore never built at this position — and the engine step is
exactly the step of that first matching rule. -/
theorem parse_first_match_precedence :
    ∀ (rules : RuleTable) (ruleList : List Str) (source : Str)
      (i j : Nat) (rti rtj : Str) (ri rj : Rule) (capi capj : Capture)
      (fuel : Nat) (st? : Option StateMap),
      i < j →
      ruleList.get? i = some rti → ruleList.get? j = some rtj →
      lookupRule rules rti = some ri → lookupRule rules rtj = some rj →
      ri.exec source = some capi → rj.exec source = some capj →
      (∀ rt, rt ∈ ruleList → (lookupRule rules rt).isSome) →
      ∃ k rtk rk capk,
        k ≤ i ∧ k < j ∧
        tryRulesGo rules source ruleList 0 = .found k rtk rk capk ∧
        ruleList.get? k = some rtk ∧ lookupRule rules rtk = some rk ∧
        rk.exec source = some capk ∧
        (∀ m rtm rm, m < k → ruleList.get? m = some rtm →
          lookupRule rules rtm = some rm → rm.exec source = none) ∧
        (source ≠ [] →
          nestedParse rules ruleList (fuel + 1) source st? =
            parseStep (nestedParse rules ruleList fuel) rtk rk capk source
              (st?.getD [])) := by
  intro rules ruleList source i j rti rtj ri rj capi capj fuel st?
  intro hij hgi hgj hli hlj hei hej hpres
  cases hfound : tryRulesGo rules source ruleList 0 with
  | crashed rt =>
    obtain ⟨hmem, hnone⟩ := ((tryRulesGo_spec rules source ruleList 0).2.2) rt hfound
    have := hpres rt hmem
    rw [hnone] at this
    cases this
  | exhausted =>
    have := ((tryRulesGo_spec rules source ruleList 0).2.1) hfound i rti ri hgi hli
    rw [this] at hei
    cases hei
  | found k rtk rk capk =>
    obtain ⟨off, hk, hoff, hlook, hexec, hmin⟩ :=
      ((tryRulesGo_spec rules source ruleList 0).1) k rtk rk capk hfound
    have hkoff : k = off := by omega
    subst hkoff
    have hki : k ≤ i := by
      by_contra hgt
      have := hmin i rti ri (by omega) hgi hli
      rw [this] at hei
      cases hei
    refine ⟨k, rtk, rk, capk, hki, by omega, rfl, hoff, hlook, hexec, hmin, ?_⟩
    intro hne
    rw [nestedParse]
    simp only [if_neg hne, hfound]

/-- Witness for C3: in `tblPrec` with priority order `a0, a1, a2` on input
`"x"`, rules `a1` (index 1) and `a2` (index 2) both match; the applied rule
is at an index at most 1, strictly before `a2`. -/
theorem parse_first_match_precedence_witness :
    ∃ k rtk rk capk,
      k ≤ 1 ∧ k < 2 ∧
      tryRulesGo tblPrec (str "x") [str "a0", str "a1", str "a2"] 0 =
        .found k rtk rk capk ∧
      ([str "a0", str "a1", str "a2"] : List Str).get? k = some rtk ∧
      lookupRule tblPrec rtk = some rk ∧
      rk.exec (str "x") = some capk ∧
      (∀ m rtm rm, m < k →
        ([str "a0", str "a1", str "a2"] : List Str).get? m = some rtm →
        lookupRule tblPrec rtm = some rm → rm.exec (str "x") = none) ∧
      (str "x" ≠ [] →
        nestedParse tblPrec [str "a0", str "a1", str "a2"] 2 (str "x") none =
          parseStep (nestedParse tblPrec [str "a0", str "a1", str "a2"] 1)
            rtk rk capk (str "x") ((none : Option StateMap).getD [])) :=
  parse_first_match_precedence tblPrec [str "a0", str "a1", str "a2"]
    (str "x") 1 2 (str "a1") (str "a2") ruleA1 ruleA2
    ⟨['x'], []⟩ ⟨['x'], []⟩ 1 none
    (by omega) rfl rfl rfl rfl rfl rfl
    (by
      intro rt h
      simp only [List.mem_cons, List.not_mem_nil, or_false] at h
      rcases h with rfl | rfl | rfl <;> rfl)

/-- Short-circuit of a parse step when the builder fails. -/
theorem parseStep_builder_error {next : ParseFn} {rt : Str} {r : Rule}
    {cap : Capture} {source : Str} {st : StateMap} {e : PErr}
    (h : r.parse cap next st = .error e) :
    parseStep next rt r cap source st = .error e := by
  simp only [parseStep, h]

/-- Counterexample for claim C2.  The claim's contracts are all satisfied:
`selfRule` is a catch-all matching any non-empty input, and every accepted
match consumes exactly one character, a prefix of the remaining input.
Its builder is the source's own `parseCapture`, and its capture group is
the consumed character itself, so parsing `"a"` re-enters the parser on
`"a"` forever: the run exhausts every fuel value — `parse` does not
terminate, refuting the universal claim at this concrete input. -/
theorem parse_catchall_nonterminating_counterexample :
    (∀ s : Str, s ≠ [] → ∃ cap, selfRule.exec s = some cap ∧
      cap.matched.length = 1 ∧ cap.matched.length ≤ s.length) ∧
    (∀ (fuel : Nat) (st? : Option StateMap),
      nestedParse tblSelf [str "self"] fuel (str "a") st? =
        .error .outOfFuel) := by
  constructor
  · intro s hs
    cases s with
    | nil => exact absurd rfl hs
    | cons c cs => exact ⟨⟨[c], [some [c]]⟩, rfl, rfl, by simp⟩
  · intro fuel
    induction fuel with
    | zero => intro st?; rfl
    | succ f ih =>
      intro st?
      have ih' : ∀ st?' : Option StateMap,
          nestedParse tblSelf [str "self"] f ['a'] st?' =
            .error .outOfFuel := ih
      have h2 : parseCapture ⟨['a'], [some ['a']]⟩
          (nestedParse tblSelf [str "self"] f) (st?.getD []) =
            .error .outOfFuel := by
        simp only [parseCapture]
        rw [show Capture.grpD ⟨['a'], [some ['a']]⟩ 1 = ['a'] from rfl]
        rw [ih']
      have h3 : selfRule.parse ⟨['a'], [some ['a']]⟩
          (nestedParse tblSelf [str "self"] f) (st?.getD []) =
            .error .outOfFuel := h2
      have h1 : nestedParse tblSelf [str "self"] (f + 1) (str "a") st? =
          parseStep (nestedParse tblSelf [str "self"] f) (str "self") selfRule
            ⟨['a'], [some ['a']]⟩ (str "a") (st?.getD []) := rfl
      rw [h1]
      exact parseStep_builder_error h3

/-- Claim C2, amended (status: corrected).  For a rule table whose priority
order is covered by the table and contains a catch-all rule matching any
non-empty input, where every successful match consumes at least one
character of the matched prefix of the remaining input, and where — the
condition the counterexample forces — each builder, on captures its own
matcher can produce, re-enters the parser only on strings strictly shorter
than the matched prefix and returns successfully whenever those nested
parses do (as all the default builders do), the parse loop terminates on
every finite input with the accumulated node sequence: fuel exceeding the
input length is never exhausted, because each successful match strictly
shortens the remaining input and nested parses work on strictly shorter
strings still. -/
theorem parse_terminates_with_catchall :
    ∀ (rules : RuleTable) (ruleList : List Str),
      (∀ rt, rt ∈ ruleList → (lookupRule rules rt).isSome) →
      (∃ rtc rc, rtc ∈ ruleList ∧ lookupRule rules rtc = some rc ∧
        ∀ s, s ≠ [] → ∃ cap, rc.exec s = some cap) →
      (∀ rt r, lookupRule rules rt = some r →
        ∀ s cap, r.exec s = some cap →
          1 ≤ cap.matched.length ∧ cap.matched.length ≤ s.length) →
      (∀ rt r, lookupRule rules rt = some r →
        ∀ s cap, r.exec s = some cap →
          ∀ (p : ParseFn) (st : StateMap),
            (∀ s' st?', s'.length < cap.matched.length →
              ∃ ns st'', p s' st?' = .ok (ns, st'')) →
            ∃ attrs st', r.parse cap p st = .ok (attrs, st')) →
      ∀ (fuel : Nat) (source : Str) (st? : Option StateMap),
        source.length < fuel →
        ∃ ns st', nestedParse rules ruleList fuel source st? =
          .ok (ns, st') := by
  intro rules ruleList hpres hcatch hcons hbuilders fuel
  induction fuel with
  | zero => intro source st? h; omega
  | succ f ih =>
    intro source st? hlt
    by_cases hs : source = []
    · subst hs
      exact ⟨[], st?.getD [], by rw [nestedParse]; simp⟩
    · obtain ⟨rtc, rc, hmem, hrc, hany⟩ := hcatch
      obtain ⟨capc, hcapc⟩ := hany source hs
      obtain ⟨ic, hic⟩ := List.mem_iff_get?.mp hmem
      cases hfound : tryRulesGo rules source ruleList 0 with
      | crashed rt =>
        obtain ⟨hmem', hnone⟩ :=
          ((tryRulesGo_spec rules source ruleList 0).2.2) rt hfound
        have := hpres rt hmem'
        rw [hnone] at this
        cases this
      | exhausted =>
        have := ((tryRulesGo_spec rules source ruleList 0).2.1) hfound ic rtc rc
          hic hrc
        rw [this] at hcapc
        cases hcapc
      | found k rt r cap =>
        obtain ⟨off, hk, hoff, hlook, hexec, _⟩ :=
          ((tryRulesGo_spec rules source ruleList 0).1) k rt r cap hfound
        obtain ⟨h1, hle⟩ := hcons rt r hlook source cap hexec
        have hpos : 0 < source.length := List.length_pos.mpr hs
        have hnested : ∀ s' st?', s'.length < cap.matched.length →
            ∃ ns st'', nestedParse rules ruleList f s' st?' =
              .ok (ns, st'') := by
          intro s' st?' hlen
          exact ih s' st?' (by omega)
        obtain ⟨attrs, st', hbuild⟩ := hbuilders rt r hlook source cap hexec
          (nestedParse rules ruleList f) (st?.getD []) hnested
        have hrest : (source.drop cap.matched.length).length < f := by
          rw [List.length_drop]
          omega
        obtain ⟨ns, st'', hns⟩ :=
          ih (source.drop cap.matched.length) (some st') hrest
        refine ⟨extendType rt attrs :: ns, st'', ?_⟩
        rw [nestedParse]
        simp only [if_neg hs, hfound, parseStep, hbuild, hns]

/-- Witness for the amended C2: `tblNest` pairs the catch-all `char` rule
with `nestRule`, whose builder genuinely re-enters the parser through the
source's `parseCapture` on the captured substring; fuel 4 parses `"hab"`
to a nested node tree. -/
theorem parse_terminates_with_catchall_witness :
    (∃ ns st',
      nestedParse tblNest [str "nest", str "char"] 4 (str "hab") none =
        .ok (ns, st')) ∧
    nestedParse tblNest [str "nest", str "char"] 4 (str "hab") none =
      .ok ([.vobj [(str "type", .vstr (str "nest")),
                   (str "content",
                     .varr [.vobj [(str "type", .vstr (str "char")),
                       (str "content", .vstr (str "a"))]])],
            .vobj [(str "type", .vstr (str "char")),
                   (str "content", .vstr (str "b"))]], []) := by
  constructor
  · refine parse_terminates_with_catchall tblNest [str "nest", str "char"]
      ?_ ?_ ?_ ?_ 4 (str "hab") none (by decide)
    · intro rt h
      simp only [List.mem_cons, List.not_mem_nil, or_false] at h
      rcases h with rfl | rfl <;> rfl
    · exact ⟨str "char", charRule,
        List.mem_cons_of_mem _ (List.mem_cons_self _ _), rfl,
        fun s hs => by
          cases s with
          | nil => exact absurd rfl hs
          | cons c cs => exact ⟨⟨[c], []⟩, rfl⟩⟩
    · intro rt r h s cap hc
      by_cases h1 : rt = str "nest"
      · subst h1
        have hr : nestRule = r := by simpa [tblNest, lookupRule] using h
        subst hr
        cases s with
        | nil => simp [nestRule] at hc
        | cons c1 s1 =>
          cases s1 with
          | nil => simp [nestRule] at hc
          | cons c2 s2 =>
            simp only [nestRule] at hc
            by_cases hch : c1 = 'h'
            · rw [if_pos hch] at hc
              cases hc
              exact ⟨by simp, by simp⟩
            · rw [if_neg hch] at hc
              cases hc
      · by_cases h2 : rt = str "char"
        · subst h2
          have hr : charRule = r := Option.some.inj (by rw [← h]; rfl)
          subst hr
          cases s with
          | nil => simp [charRule] at hc
          | cons c cs =>
            simp only [charRule] at hc
            cases hc
            exact ⟨Nat.le.refl, by simp⟩
        · simp [tblNest, lookupRule, h1, h2] at h
    · intro rt r h s cap hc p st hinner
      by_cases h1 : rt = str "nest"
      · subst h1
        have hr : nestRule = r := by simpa [tblNest, lookupRule] using h
        subst hr
        cases s with
        | nil => simp [nestRule] at hc
        | cons c1 s1 =>
          cases s1 with
          | nil => simp [nestRule] at hc
          | cons c2 s2 =>
            simp only [nestRule] at hc
            by_cases hch : c1 = 'h'
            · rw [if_pos hch] at hc
              cases hc
              obtain ⟨ns, st'', hp⟩ := hinner [c2] (some st) (by simp)
              have hpc : parseCapture ⟨[c1, c2], [some [c2]]⟩ p st =
                  .ok ([(str "content", .varr ns)], st'') := by
                simp only [parseCapture]
                rw [show Capture.grpD ⟨[c1, c2], [some [c2]]⟩ 1 = [c2]
                  from rfl]
                rw [hp]
              exact ⟨[(str "content", .varr ns)], st'', hpc⟩
            · rw [if_neg hch] at hc
              cases hc
      · by_cases h2 : rt = str "char"
        · subst h2
          have hr : charRule = r := Option.some.inj (by rw [← h]; rfl)
          subst hr
          exact ⟨[(str "content", .vstr cap.matched)], st, rfl⟩
        · simp [tblNest, lookupRule, h1, h2] at h
  · rfl

/-- Unfolding of the per-item content computation on a cons cell. -/
theorem listContentsGo_cons (len : Nat) (item : Str) (rest : List Str)
    (i : Nat) (flag : Bool) :
    listContentsGo len (item :: rest) i flag =
      if (i : Int) = (len : Int) - 2 then
        itemRaw item ::
          listContentsGo len rest (i + 1) (endsWith2NL (itemRaw item))
      else if (i : Int) = (len : Int) - 1 ∧ flag = false then
        stripBlockEnd (itemRaw item) :: listContentsGo len rest (i + 1) flag
      else
        itemRaw item :: listContentsGo len rest (i + 1) flag := rfl

/-- At the second-to-last index the flag is set from that item's dedented
content, and the last item is stripped exactly when the flag is false;
intermediate items pass the flag through unchanged. -/
theorem listContentsGo_two_tail (len : Nat) :
    ∀ (l : List Str) (a b : Str) (i : Nat) (flag : Bool),
      (i : Int) + l.length = (len : Int) - 2 →
      listContentsGo len (l ++ [a, b]) i flag =
        l.map itemRaw ++ [itemRaw a,
          if endsWith2NL (itemRaw a) then itemRaw b
          else stripBlockEnd (itemRaw b)] := by
  intro l
  induction l with
  | nil =>
    intro a b i flag hi
    simp only [List.nil_append, List.map_nil]
    have h2 : (i : Int) = (len : Int) - 2 := by simpa using hi
    rw [listContentsGo_cons, if_pos h2]
    rw [listContentsGo_cons]
    have hne2 : ¬(((i + 1 : Nat) : Int) = (len : Int) - 2) := by
      push_cast
      omega
    rw [if_neg hne2]
    have hlast : ((i + 1 : Nat) : Int) = (len : Int) - 1 := by
      push_cast
      omega
    by_cases hf : endsWith2NL (itemRaw a)
    · rw [if_neg (fun hc => by rw [hf] at hc; cases hc.2), if_pos hf]
      rfl
    · rw [if_pos ⟨hlast, by simpa using hf⟩,
        if_neg (by simpa using hf)]
      rfl
  | cons x l ih =>
    intro a b i flag hi
    have hlen : ((x :: l) : List Str).length = l.length + 1 := rfl
    rw [hlen] at hi
    push_cast at hi
    have h1 : ¬((i : Int) = (len : Int) - 2) := by omega
    have h2 : ¬(((i : Int) = (len : Int) - 1) ∧ flag = false) := by
      intro hc
      omega
    rw [List.cons_append, listContentsGo_cons, if_neg h1, if_neg h2,
      List.map_cons, List.cons_append]
    rw [ih a b (i + 1) flag (by push_cast; omega)]

/-- Claim C8 (status: confirmed).  For a list of at least two items, the
second-to-last item's dedented content decides tightness: if it ends in a
two-or-more newline run the list is loose and every item's content
(including the last) is kept as is; otherwise the list is tight and
exactly the final item's trailing blank-line run is stripped.  On the
concrete block `"* a\n* b\n"` segmentation yields two items whose contents
`"a\n"` and `"b"` retain no trailing paragraph break, and the list node has
`ordered = false` for the length-1 bullet token `"*"`. -/
theorem list_tight_loose_determination :
    (∀ (l : List Str) (a b : Str),
      listContents (l ++ [a, b]) =
        if endsWith2NL (itemRaw a) then (l ++ [a, b]).map itemRaw
        else l.map itemRaw ++ [itemRaw a, stripBlockEnd (itemRaw b)]) ∧
    scanItems (str "* a\n* b\n") = [str "* a", str "* b\n"] ∧
    listContents (scanItems (str "* a\n* b\n")) = [str "a\n", str "b"] ∧
    endsWith2NL (str "a\n") = false ∧ endsWith2NL (str "b") = false ∧
    listParse ⟨str "* a\n* b\n", [some [], some (str "*")]⟩ stubParse [] =
      .ok ([(str "ordered", .vbool false),
            (str "items", .varr [.varr [.vstr (str "a\n")],
              .varr [.vstr (str "b")]])], []) := by
  refine ⟨?_, rfl, rfl, rfl, rfl, rfl⟩
  intro l a b
  rw [listContents]
  rw [listContentsGo_two_tail ((l ++ [a, b]).length) l a b 0 false
    (by simp [List.length_append])]
  by_cases hf : endsWith2NL (itemRaw a)
  · rw [if_pos hf, if_pos hf]
    simp [List.map_append]
  · rw [if_neg hf, if_neg hf]

/-- Claim C7 (status: confirmed).  Whenever the list builder succeeds, the
node's `ordered` attribute is exactly the test that the first bullet token
(`capture[2]`) is longer than one character. -/
theorem list_ordered_iff_bullet_len_gt_one :
    ∀ (cap : Capture) (p : ParseFn) (st : StateMap) (attrs : Attrs)
      (st' : StateMap),
      listParse cap p st = .ok (attrs, st') →
      lookupField attrs (str "ordered") =
        some (.vbool (decide (1 < (cap.grpD 2).length))) := by
  intro cap p st attrs st' h
  simp only [listParse] at h
  cases hp : parseItems p (listContents (scanItems cap.matched)) st with
  | error e =>
    simp only [hp] at h
    cases h
  | ok pr =>
    obtain ⟨vs, st2⟩ := pr
    simp only [hp] at h
    cases h
    simp [lookupField]

/-- Witness for C7: bullet token `"1."` (length 2) yields `ordered = true`;
bullet token `"*"` (length 1) yields `ordered = false`. -/
theorem list_ordered_iff_bullet_len_gt_one_witness :
    (∃ attrs st', listParse capOne stubParse [] = .ok (attrs, st') ∧
      lookupField attrs (str "ordered") = some (.vbool true)) ∧
    (∃ attrs st', listParse capStar stubParse [] = .ok (attrs, st') ∧
      lookupField attrs (str "ordered") = some (.vbool false)) :=
  ⟨⟨_, _, rfl,
    list_ordered_iff_bullet_len_gt_one capOne stubParse [] _ _ rfl⟩,
   ⟨_, _, rfl,
    list_ordered_iff_bullet_len_gt_one capStar stubParse [] _ _ rfl⟩⟩

/-- Claim C10 (status: confirmed).  A list block that segments into exactly
one item is always treated as tight: `lastItemWasAParagraph` is initialized
to `false` and the second-to-last branch is unreachable (index `-1`), so
the single item always has its trailing two-or-more newline run stripped,
even when its own content ends in a paragraph break. -/
theorem single_item_list_always_tight :
    ∀ (block : Str) (a : Str), scanItems block = [a] →
      listContents (scanItems block) = [stripBlockEnd (itemRaw a)] := by
  intro block a h
  rw [h, listContents]
  rw [listContentsGo_cons]
  rw [if_neg (by norm_num), if_pos (by norm_num)]
  rfl

/-- Witness for C10: the block `"* a\n\n"` is a single item whose content
ends in a paragraph break, yet its trailing newlines are stripped. -/
theorem single_item_list_always_tight_witness :
    scanItems (str "* a\n\n") = [str "* a\n\n"] ∧
    endsWith2NL (itemRaw (str "* a\n\n")) = true ∧
    listContents (scanItems (str "* a\n\n")) = [str "a"] := by
  refine ⟨rfl, rfl, ?_⟩
  rw [single_item_list_always_tight (str "* a\n\n") (str "* a\n\n") rfl]
  rfl

/-- Claim C4 (status: confirmed).  The node pushed by the engine carries
the builder's `type` attribute when one is returned, and the originating
rule-type tag otherwise; concretely, `lheading` applied to `"T\n===\n"`
produces a node tagged `"heading"`, while the catch-all rule (no override)
produces a node tagged with its own rule type. -/
theorem builder_type_override_honored :
    (∀ (rt : Str) (attrs : Attrs),
      typeOf (extendType rt attrs) =
        some ((lookupField attrs (str "type")).getD (.vstr rt))) ∧
    nestedParse tblLheading [str "lheading", str "char"] 5 (str "T\n===\n")
      none =
      .ok ([.vobj [(str "type", .vstr (str "heading")),
                   (str "level", .vnum 1),
                   (str "content",
                     .varr [.vobj [(str "type", .vstr (str "char")),
                       (str "content", .vstr (str "T"))]])]], []) ∧
    nestedParse tblLheading [str "lheading", str "char"] 5 (str "T") none =
      .ok ([.vobj [(str "type", .vstr (str "char")),
                   (str "content", .vstr (str "T"))]], []) := by
  refine ⟨?_, rfl, rfl⟩
  intro rt attrs
  simp [typeOf, extendType, lookupField]

/-- Counterexample for claim C9.  The recursive-parse function handed to
builders is `nestedParse` itself, with the state as an explicit second
parameter, not a function closed over the enclosing state: the link
builder calls it on the bracketed content with no state argument
(`parse(capture[1])`), so `state = state || {}` gives the nested parse a
fresh empty state.  With enclosing state `{k: "v"}`, the probe inside the
link records the empty state — not the enclosing one, refuting the claim
on this concrete input. -/
theorem link_nested_parse_fresh_state_counterexample :
    nestedParse tblLink [str "link", str "probe"] 4 (str "[p](t)")
      (some [(str "k", .vstr (str "v"))]) =
      .ok ([.vobj [(str "type", .vstr (str "link")),
                   (str "content",
                     .varr [.vobj [(str "type", .vstr (str "probe")),
                       (str "sawState", .vobj [])]]),
                   (str "target", .vstr (str "t"))]],
           [(str "k", .vstr (str "v"))]) ∧
    JVal.vobj ([] : List (Str × JVal)) ≠
      .vobj [(str "k", .vstr (str "v"))] := by
  refine ⟨rfl, ?_⟩
  intro h
  injection h with h1
  cases h1

/-- Claim C9, amended (status: corrected).  Builders receive `nestedParse`
with the state as an explicit parameter; a nested parse shares the
enclosing state exactly when the builder passes it along (as `parseCapture`
and the heading-style builders do), whereas the link rule's
`parse(capture[1])` call omits it, so the bracketed content is parsed with
a fresh empty state whatever the enclosing state was. -/
theorem nested_parse_state_is_explicit_argument :
    ∀ (st : StateMap),
      nestedParse tblLink [str "link", str "probe"] 4 (str "[p](t)")
        (some st) =
        .ok ([.vobj [(str "type", .vstr (str "link")),
                     (str "content",
                       .varr [.vobj [(str "type", .vstr (str "probe")),
                         (str "sawState", .vobj [])]]),
                     (str "target", .vstr (str "t"))]], st) ∧
      nestedParse tblShare [str "wrap", str "probe"] 4 (str "[p](t)")
        (some st) =
        .ok ([.vobj [(str "type", .vstr (str "wrap")),
                     (str "content",
                       .varr [.vobj [(str "type", .vstr (str "probe")),
                         (str "sawState", .vobj st)]])]], st) :=
  fun _ => ⟨rfl, rfl⟩

end SimpleMarkdown
